import Mathlib

/-!
A verification development for a GitHub profile dashboard generator.

The program collects GitHub activity data, aggregates it into metrics
(daily buckets, streaks, monthly counts), rankings (by activity, stars,
commits, recency) and a career timeline (overlapping work-interval merge),
and renders SVG dashboard images.

This file gives a shallow embedding of the relevant Python modules:
  * `src/processors/metrics_processor.py`   (streaks, daily and monthly stats)
  * `src/processors/rankings_processor.py`  (the four ranking functions)
  * `src/generators/career_timeline_generator.py`
        (interval merge for total experience, compact experience SVG)
  * `src/scripts/generate_complete_dashboard.py` (batch chart loop, exit code)

Conventions of the embedding:
  * Python `datetime` values are modelled by explicit calendar fields plus an
    optional UTC offset; instants are measured in seconds since the epoch via
    the standard civil-from-days / days-from-civil algorithms.
  * Python `//` and `%` on `int` floor toward minus infinity; for the positive
    divisors used by the code (12, 86400) Lean's `Int` division `/` (Euclidean)
    agrees with floor division, so `/` and `%` are used directly.
  * Python `list.sort` / `sorted` are stable sorts; they are modelled with
    `List.insertionSort`, which is stable and produces the same list.
-/

namespace Dashboard

/-- Days since 1970-01-01 of a civil calendar date, by the standard
days-from-civil algorithm.  This models the day arithmetic of Python
`datetime.date` (subtraction of dates, `timedelta.days`). -/
def days_from_civil (y m d : Int) : Int :=
  let y' := if m ≤ 2 then y - 1 else y
  let era := y' / 400
  let yoe := y' - era * 400
  let mp := (m + 9) % 12
  let doy := (153 * mp + 2) / 5 + d - 1
  let doe := yoe * 365 + yoe / 4 - yoe / 100 + doy
  era * 146097 + doe - 719468

/-- Civil calendar date (year, month, day) of a day count since 1970-01-01,
the inverse direction of `days_from_civil`.  Used to express what "the
calendar date in UTC" of an instant is. -/
def civil_from_days (z : Int) : Int × Int × Int :=
  let z' := z + 719468
  let era := z' / 146097
  let doe := z' - era * 146097
  let yoe := (doe - doe / 1460 + doe / 36524 - doe / 146096) / 365
  let y := yoe + era * 400
  let doy := doe - (365 * yoe + yoe / 4 - yoe / 100)
  let mp := (5 * doy + 2) / 153
  let d := doy - (153 * mp + 2) / 5 + 1
  let m := if mp < 10 then mp + 3 else mp - 9
  (if m ≤ 2 then y + 1 else y, m, d)

/-- A parsed ISO timestamp as produced by `datetime.fromisoformat`: the naive
calendar/clock fields carried by the string, plus the UTC offset in minutes
when the string carries one (`none` models a timezone-naive datetime). -/
structure Timestamp where
  year : Int
  month : Int
  day : Int
  hour : Int
  minute : Int
  second : Int
  utcOffset : Option Int
deriving DecidableEq, Repr

/-- Seconds since the epoch of the naive fields, ignoring the offset.  This is
what Python datetime arithmetic uses after `replace(tzinfo=None)`. -/
def Timestamp.naive_seconds (t : Timestamp) : Int :=
  days_from_civil t.year t.month t.day * 86400
    + t.hour * 3600 + t.minute * 60 + t.second

/-- The instant denoted by an offset-aware timestamp, in seconds since the
epoch UTC.  (Only meaningful when `utcOffset` is present; Python raises on
aware/naive comparisons, which the embedding models separately.) -/
def Timestamp.utc_seconds (t : Timestamp) : Int :=
  t.naive_seconds - t.utcOffset.getD 0 * 60

/-- The calendar date carried literally by the timestamp's own fields.  This is
what `datetime.fromisoformat(s).date()` returns: no conversion to UTC. -/
def Timestamp.local_date (t : Timestamp) : Int × Int × Int :=
  (t.year, t.month, t.day)

/-- The calendar date of the timestamp's instant in UTC. -/
def Timestamp.utc_date (t : Timestamp) : Int × Int × Int :=
  civil_from_days (t.utc_seconds / 86400)

/-! ### Streak calculator (`MetricsProcessor.calculate_activity_streak`)

Commit dates are modelled as epoch-day numbers (`Int`), the image of
`datetime.fromisoformat(c['date']).date()` under `days_from_civil`;
subtraction of two dates in days is then plain integer subtraction. -/

/-- Backward walk of the current-streak loop: the Python code sets
`current_streak = 1` and then, walking from the most recent unique date
backwards, increments while consecutive dates differ by exactly one day and
breaks at the first larger gap.  The argument is the unique-dates list in
descending order (most recent first). -/
def desc_run : List Int → Nat
  | a :: b :: rest => if a - b = 1 then 1 + desc_run (b :: rest) else 1
  | _ => 1

/-- Forward pass of the longest-streak loop, carried through the fold state:
`temp` is the length of the run ending at `prev`, `longest` the maximum seen;
on a gap of exactly one day `temp` grows and `longest` is updated, otherwise
`temp` resets to 1; at the end the Python code takes `max(longest, temp)`. -/
def longest_loop : Int → Nat → Nat → List Int → Nat
  | _, temp, longest, [] => max longest temp
  | prev, temp, longest, d :: rest =>
    if d - prev = 1 then longest_loop d (temp + 1) (max longest (temp + 1)) rest
    else longest_loop d 1 longest rest

/-- Model of `sorted(set(dates))`: the distinct commit dates in ascending
order.  `dedup` keeps one copy of each date and the stable sort orders them. -/
def unique_dates (commits : List Int) : List Int :=
  List.insertionSort (· ≤ ·) commits.dedup

/-- Current streak: defined (as 1 plus the backward walk) only when the most
recent unique date is within one day of today, otherwise 0. -/
def current_streak (today : Int) (u : List Int) : Nat :=
  match u.reverse with
  | [] => 0
  | last :: revRest => if today - last ≤ 1 then desc_run (last :: revRest) else 0

/-- Longest streak: the forward pass starting with `temp = 1`, `longest = 0`
over the unique dates. -/
def longest_streak (u : List Int) : Nat :=
  match u with
  | [] => 0
  | d :: rest => longest_loop d 1 0 rest

/-- Model of `MetricsProcessor.calculate_activity_streak`, with "today"
(`datetime.now(timezone.utc).date()`) passed as an explicit epoch-day
parameter.  Returns `(current, longest)`. -/
def calculate_activity_streak (today : Int) (commits : List Int) : Nat × Nat :=
  if commits.isEmpty then (0, 0)
  else
    let u := unique_dates commits
    (current_streak today u, longest_streak u)

/-! ### Career interval merge (`CareerTimelineGenerator._calculate_total_experience`)

Career dates are `YYYY-MM` strings or the sentinel `"present"`, parsed by
`_parse_date` with `strptime("%Y-%m")` (day 1, midnight) or `datetime.now()`.
Since every explicitly given start is the first instant of its month,
`relativedelta(end, start).years * 12 + months` is exactly the difference of
month indices, and all comparisons made by the merge reduce to comparisons of
month indices; dates are therefore modelled as month indices (`year * 12 +
month`), with `"present"` resolved to the month index of the current time. -/

/-- A career date as it appears in `career.json`: an explicit `YYYY-MM` month
or the sentinel `"present"`. -/
inductive CareerDate
  | month (y m : Int)
  | present
deriving DecidableEq, Repr

/-- Model of `_parse_date`: the month index of a career date, with `"present"`
resolved to the current month index `now`. -/
def parse_date (now : Int) : CareerDate → Int
  | .month y m => y * 12 + m
  | .present => now

/-- A career entry of `professional_timeline`.  `date_end` defaults to
`"present"` in the code (`entry.get('date_end', 'present')`); the embedding
makes the date explicit, with `CareerDate.present` covering both an explicit
`"present"` and an absent key. -/
structure CareerEntry where
  type : String
  title : String
  company : String
  date_start : CareerDate
  date_end : CareerDate
deriving DecidableEq, Repr

/-- The `(start, end)` pairs collected for entries of type `"work"`. -/
def work_periods (now : Int) (entries : List CareerEntry) : List (Int × Int) :=
  (entries.filter (fun e => e.type == "work")).map
    (fun e => (parse_date now e.date_start, parse_date now e.date_end))

/-- Model of `periods.sort(key=lambda x: x[0])`: stable sort by start. -/
def sort_periods (ps : List (Int × Int)) : List (Int × Int) :=
  List.insertionSort (fun p q => p.1 ≤ q.1) ps

/-- One step of the merge loop.  The accumulator holds the merged list in
reverse (most recent merged interval first, i.e. Python's `merged[-1]` is the
head): if the next period starts no later than the last merged end, the last
merged interval is extended to the later end, otherwise the period is pushed
as a new merged interval. -/
def merge_step (merged : List (Int × Int)) (p : Int × Int) : List (Int × Int) :=
  match merged with
  | [] => [p]
  | (ls, le) :: rest =>
    if p.1 ≤ le then (ls, max le p.2) :: rest else p :: (ls, le) :: rest

/-- The merged interval list (in the original order, hence the final
`reverse`). -/
def merge_periods (ps : List (Int × Int)) : List (Int × Int) :=
  (ps.foldl merge_step []).reverse

/-- Total months over a list of periods: the code sums
`relativedelta(end, start).years * 12 + months`, which on month indices is
`end - start`. -/
def total_months (merged : List (Int × Int)) : Int :=
  (merged.map (fun p => p.2 - p.1)).sum

/-- Rendering of a month total into the displayed string: years and months by
floor division, a part is emitted only when positive, and the escaped sentinel
`"&lt; 1m"` is returned when both parts are empty. -/
def experience_string (tm : Int) : String :=
  let years := tm / 12
  let months := tm % 12
  let parts := (if 0 < years then [s!"{years}y"] else [])
    ++ (if 0 < months then [s!"{months}m"] else [])
  if parts.isEmpty then "&lt; 1m" else " ".intercalate parts

/-- Model of `_calculate_total_experience`: empty input and input without work
entries both yield `"0y"`, otherwise the work periods are sorted by start,
overlapping periods are merged, and the summed month total is rendered. -/
def calculate_total_experience (now : Int) (entries : List CareerEntry) : String :=
  if entries.isEmpty then "0y"
  else
    let periods := work_periods now entries
    if periods.isEmpty then "0y"
    else experience_string (total_months (merge_periods (sort_periods periods)))

/-- The month total after the overlap merge (the quantity the code converts to
years and months). -/
def merged_total_months (now : Int) (entries : List CareerEntry) : Int :=
  total_months (merge_periods (sort_periods (work_periods now entries)))

/-- The naive month total: each work period counted separately, with no
overlap merge.  This is the comparison quantity named by the specification. -/
def naive_total_months (now : Int) (entries : List CareerEntry) : Int :=
  ((work_periods now entries).map (fun p => p.2 - p.1)).sum

/-- The set of months a period covers: month indices from its start
(inclusive) to its end (exclusive), matching the code's end-exclusive month
count.  Two periods overlap exactly when these sets intersect. -/
def period_set (p : Int × Int) : Finset Int :=
  Finset.Ico p.1 p.2

/-- The set of months covered by any period of the list. -/
def periods_union : List (Int × Int) → Finset Int
  | [] => ∅
  | p :: rest => period_set p ∪ periods_union rest

/-! ### Raw records (the collector's output consumed by the processors) -/

/-- A commit record; only the fields read by the processors are kept
(`repo` for the rankings, `date` for the metrics). -/
structure CommitRec where
  repo : String
  date : Timestamp
deriving DecidableEq, Repr

/-- A pull-request record (`repo`, `created_at` are the fields read). -/
structure PrRec where
  repo : String
  created_at : Timestamp
deriving DecidableEq, Repr

/-- An issue record (`repo`, `created_at` are the fields read by the monthly
stats; `closed_at` by the weekly stats). -/
structure IssueRec where
  repo : String
  created_at : Timestamp
  closed_at : Option Timestamp
deriving DecidableEq, Repr

/-- A repository record with the fields read by the rankings processor.
`private` is a Lean keyword, so that field is named `priv`; `html_url` is read
with `repo.get('html_url', '')`, hence optional; `pushed_at` is optional
(`if repo['pushed_at']:` skips falsy values). -/
structure Repo where
  name : String
  full_name : String
  html_url : Option String
  language : Option String
  stars : Int
  forks : Int
  description : String
  priv : Bool
  pushed_at : Option Timestamp
deriving DecidableEq, Repr

/-- The epoch-day number of the calendar date carried by the timestamp's own
fields, i.e. of `datetime.fromisoformat(s).date()`. -/
def Timestamp.local_day (t : Timestamp) : Int :=
  days_from_civil t.year t.month t.day

/-- The streak calculator as called on commit records: it extracts
`datetime.fromisoformat(c['date']).date()` for each commit and runs the
streak computation on those dates. -/
def calculate_activity_streak_of_commits (today : Int) (commits : List CommitRec) :
    Nat × Nat :=
  calculate_activity_streak today (commits.map (fun c => c.date.local_day))

/-! ### Daily stats (`MetricsProcessor.calculate_daily_stats`)

Commits are grouped with a `defaultdict(int)` keyed by
`datetime.fromisoformat(commit['date']).date().isoformat()` — the date of the
timestamp's own fields, not converted to UTC.  A Python dict keeps insertion
order (first occurrence), and the items are then sorted by their key; on the
zero-padded ISO date strings lexicographic string order is exactly
lexicographic order of the (year, month, day) triples. -/

/-- Lexicographic order on (year, month, day) date triples: the order of the
ISO `YYYY-MM-DD` key strings the code sorts by. -/
def date_lex_le (a b : Int × Int × Int) : Prop :=
  a.1 < b.1 ∨ (a.1 = b.1 ∧ (a.2.1 < b.2.1 ∨ (a.2.1 = b.2.1 ∧ a.2.2 ≤ b.2.2)))

instance : DecidableRel date_lex_le := fun a b => by
  unfold date_lex_le; infer_instance

/-- Increment the counter of key `d` in an association list, appending a new
`(d, 1)` entry at the end when absent — the behaviour of
`commits_by_date[date] += 1` on a `defaultdict(int)`, which keeps insertion
order. -/
def bump_date (acc : List ((Int × Int × Int) × Nat)) (d : Int × Int × Int) :
    List ((Int × Int × Int) × Nat) :=
  match acc with
  | [] => [(d, 1)]
  | (k, n) :: rest =>
    if k = d then (k, n + 1) :: rest else (k, n) :: bump_date rest d

/-- The `commits_by_date` dictionary: commit count per local calendar date, in
first-occurrence order. -/
def commits_by_date (commits : List CommitRec) : List ((Int × Int × Int) × Nat) :=
  commits.foldl (fun acc c => bump_date acc c.date.local_date) []

/-- The `commits_per_day` list: the dictionary items sorted by date key. -/
def commits_per_day (commits : List CommitRec) : List ((Int × Int × Int) × Nat) :=
  List.insertionSort (fun p q => date_lex_le p.1 q.1) (commits_by_date commits)

/-- Dictionary lookup with default 0: the count stored for a date key (the
first entry with that key; the keys of `commits_by_date` are distinct). -/
def date_count (acc : List ((Int × Int × Int) × Nat)) (d : Int × Int × Int) : Nat :=
  match acc with
  | [] => 0
  | (k, n) :: rest => if k = d then n else date_count rest d

/-! ### Monthly stats (`MetricsProcessor.calculate_monthly_stats`)

`month_start` is `datetime.now(timezone.utc)` with day 1, midnight — an
offset-aware datetime.  Each record's timestamp is parsed with
`fromisoformat` and compared with `>= month_start`: Python compares two aware
datetimes by instant, and raises `TypeError` when one side is naive.  The
embedding returns `Except`, erring at the first naive timestamp in the order
the comprehensions run (commits, then PRs, then issues). -/

/-- The message of the `TypeError` Python raises when an offset-naive and an
offset-aware datetime are compared. -/
def naive_compare_error : String :=
  "TypeError: cannot compare offset-naive and offset-aware datetimes"

/-- Counts the timestamps whose instant is at or after `m0` (seconds since
epoch), failing like Python does at the first offset-naive timestamp. -/
def aware_count_ge (m0 : Int) : List Timestamp → Except String Nat
  | [] => .ok 0
  | t :: rest =>
    match t.utcOffset with
    | none => .error naive_compare_error
    | some _ =>
      Except.bind (aware_count_ge m0 rest) (fun n =>
        .ok (if m0 ≤ t.utc_seconds then n + 1 else n))

/-- The result record of `calculate_monthly_stats` (the `month` label is the
`(year, month)` of the current UTC time). -/
structure MonthlyStats where
  commits_this_month : Nat
  prs_this_month : Nat
  issues_this_month : Nat
  month : Int × Int
deriving DecidableEq, Repr

/-- Model of `MetricsProcessor.calculate_monthly_stats`, with the current UTC
time passed explicitly (an aware timestamp).  Raising `TypeError` is modelled
by `Except.error`, propagated from the first naive timestamp in evaluation
order (commits, then PRs, then issues). -/
def calculate_monthly_stats (now : Timestamp) (commits : List CommitRec)
    (prs : List PrRec) (issues : List IssueRec) : Except String MonthlyStats :=
  let m0 := days_from_civil now.year now.month 1 * 86400
  Except.bind (aware_count_ge m0 (commits.map (fun x => x.date))) (fun c =>
  Except.bind (aware_count_ge m0 (prs.map (fun x => x.created_at))) (fun p =>
  Except.bind (aware_count_ge m0 (issues.map (fun x => x.created_at))) (fun i =>
  .ok ⟨c, p, i, (now.year, now.month)⟩)))

/-! ### Rankings (`RankingsProcessor`)

Counting loops over `defaultdict` counters tally, for each repository name,
how many commit/PR/issue records carry that name; this is `countP` per name.
Each ranking builds its entry list in `self.repos` order, sorts it descending
by its key with Python's stable `list.sort(reverse=True)` (modelled by the
stable `insertionSort` with the reversed relation), and truncates to `limit`.
`rank_by_recent_activity` sorts by the `pushed_at` ISO string; on the
uniformly formatted zero-padded timestamps this is exactly the order of the
naive calendar fields, i.e. of `naive_seconds`. -/

/-- The default the code supplies for a missing `html_url`
(`repo.get('html_url', '')`). -/
def default_html_url : String := ""

/-- An entry of the activity ranking (`rank_by_activity`). -/
structure ActivityEntry where
  name : String
  full_name : String
  html_url : String
  language : Option String
  score : Nat
  commits : Nat
  prs : Nat
  issues : Nat
  stars : Int
  priv : Bool
deriving DecidableEq, Repr

/-- Model of `RankingsProcessor.rank_by_activity`: per-repo activity score
`commits + prs + issues`, repos with score 0 dropped, sorted descending by
score, truncated to `limit`. -/
def rank_by_activity (repos : List Repo) (commits : List CommitRec)
    (prs : List PrRec) (issues : List IssueRec) (limit : Nat) : List ActivityEntry :=
  let ranked := repos.filterMap (fun r =>
    let sc := commits.countP (fun c => c.repo == r.name)
    let sp := prs.countP (fun p => p.repo == r.name)
    let si := issues.countP (fun i => i.repo == r.name)
    let total := sc + sp + si
    if 0 < total then
      some { name := r.name, full_name := r.full_name, html_url := r.html_url.getD default_html_url,
             language := r.language, score := total, commits := sc, prs := sp,
             issues := si, stars := r.stars, priv := r.priv }
    else none)
  (List.insertionSort (fun a b => b.score ≤ a.score) ranked).take limit

/-- An entry of the stars ranking (`rank_by_stars`). -/
structure StarsEntry where
  name : String
  full_name : String
  language : Option String
  stars : Int
  forks : Int
  description : String
deriving DecidableEq, Repr

/-- Model of `RankingsProcessor.rank_by_stars`: repos with `stars > 0`, sorted
descending by stars, truncated to `limit`. -/
def rank_by_stars (repos : List Repo) (limit : Nat) : List StarsEntry :=
  let starred := (repos.filter (fun r => 0 < r.stars)).map (fun r =>
    { name := r.name, full_name := r.full_name, language := r.language,
      stars := r.stars, forks := r.forks, description := r.description : StarsEntry })
  (List.insertionSort (fun a b => b.stars ≤ a.stars) starred).take limit

/-- An entry of the commit-count ranking (`rank_by_commits`). -/
structure CommitsEntry where
  name : String
  full_name : String
  language : Option String
  commits : Nat
  priv : Bool
deriving DecidableEq, Repr

/-- Model of `RankingsProcessor.rank_by_commits`: per-repo commit count, repos
with count 0 dropped, sorted descending by count, truncated to `limit`. -/
def rank_by_commits (repos : List Repo) (commits : List CommitRec) (limit : Nat) :
    List CommitsEntry :=
  let ranked := repos.filterMap (fun r =>
    let n := commits.countP (fun c => c.repo == r.name)
    if 0 < n then
      some { name := r.name, full_name := r.full_name, language := r.language,
             commits := n, priv := r.priv }
    else none)
  (List.insertionSort (fun a b => b.commits ≤ a.commits) ranked).take limit

/-- An entry of the recent-activity ranking (`rank_by_recent_activity`). -/
structure RecentEntry where
  name : String
  full_name : String
  language : Option String
  last_push : Timestamp
  days_ago : Int
  priv : Bool
deriving DecidableEq, Repr

/-- Model of `RankingsProcessor.rank_by_recent_activity`.  `now_naive` is
`datetime.now(timezone.utc).replace(tzinfo=None)` in epoch seconds; the code
strips the timezone from an aware `pushed_at` and keeps a naive one as is, so
both branches subtract the naive fields: `days_ago` is the floor of the
difference in days (`timedelta.days` floors).  The sort key is the raw
`last_push` string, i.e. descending `naive_seconds`. -/
def rank_by_recent_activity (now_naive : Int) (repos : List Repo) (limit : Nat) :
    List RecentEntry :=
  let recent := repos.filterMap (fun r =>
    match r.pushed_at with
    | none => none
    | some ts =>
      some { name := r.name, full_name := r.full_name, language := r.language,
             last_push := ts, days_ago := (now_naive - ts.naive_seconds) / 86400,
             priv := r.priv })
  (List.insertionSort
    (fun a b => b.last_push.naive_seconds ≤ a.last_push.naive_seconds) recent).take limit

/-! ### Batch chart generation (`generate_complete_dashboard.main`)

Each chart is attempted inside `try/except`: an exception is recorded as
`"<name>: <message>"` in the error list and the loop continues; a chart whose
output file is missing or empty is recorded as `"<name>: Empty file
generated"`; a successful chart appends its filename to `charts_generated`.
The function returns `0 if len(errors) == 0 else 1` (after an early `return 1`
when `data/metrics.json` is missing). -/

/-- The outcome of one chart-generation call: it raises an exception, or it
returns a path whose file exists (or not) with a size in bytes. -/
inductive GenResult
  | raises (msg : String)
  | written (fileExists : Bool) (size : Nat)
deriving DecidableEq, Repr

/-- One entry of `chart_configs` together with its generation outcome. -/
structure ChartSpec where
  name : String
  filename : String
  result : GenResult
deriving DecidableEq, Repr

/-- Whether a chart counts as failed: its generator raised, or the written
file is missing or empty. -/
def chart_failed (c : ChartSpec) : Bool :=
  match c.result with
  | .raises _ => true
  | .written ex size => !(ex && decide (0 < size))

/-- The error string the loop records for a failed chart. -/
def chart_error_msg (c : ChartSpec) : String :=
  match c.result with
  | .raises msg => c.name ++ ": " ++ msg
  | .written _ _ => c.name ++ ": Empty file generated"

/-- One iteration of the generation loop over the state
`(charts_generated, errors)`. -/
def chart_step (st : List String × List String) (c : ChartSpec) :
    List String × List String :=
  match c.result with
  | .raises msg => (st.1, st.2 ++ [c.name ++ ": " ++ msg])
  | .written ex size =>
    if ex ∧ 0 < size then (st.1 ++ [c.filename], st.2)
    else (st.1, st.2 ++ [c.name ++ ": Empty file generated"])

/-- The generation loop: every chart is attempted, in order. -/
def run_charts (charts : List ChartSpec) : List String × List String :=
  charts.foldl chart_step ([], [])

/-- Model of `main`'s exit code: 1 when `data/metrics.json` is missing,
otherwise 0 exactly when the error list stayed empty. -/
def dashboard_main (metricsExists : Bool) (charts : List ChartSpec) : Nat :=
  if !metricsExists then 1
  else if (run_charts charts).2.isEmpty then 0 else 1

/-! ### Compact experience SVG (`CareerTimelineGenerator`)

`generate_compact_experience` renders an SVG string from the career entries
and the theme palette.  It is time-dependent through
`_calculate_total_experience`, which resolves `"present"` dates to
`datetime.now()`; the current month index is therefore an explicit parameter
of the embedding.  Literal CSS braces are written `\x7b` / `\x7d` and
apostrophes `\x27`. -/

/-- The colour palette of `themes/dark.json` read by the renderers. -/
structure Theme where
  text : String
  accent : String
  textSecondary : String
  textMuted : String
  border : String
  success : String
  purple : String
  warning : String
  card : String
  background : String
deriving DecidableEq, Repr

/-- Model of `CareerTimelineGenerator._create_styles`: the CSS stylesheet
string with the theme colours interpolated. -/
def create_styles (t : Theme) : String :=
  let ctext := t.text
  let cacc := t.accent
  let csec := t.textSecondary
  let cmut := t.textMuted
  let cbor := t.border
  let csuc := t.success
  let cpur := t.purple
  let cwar := t.warning
  s!"\n        * \x7b \n            font-family: -apple-system, BlinkMacSystemFont, \x27Segoe UI\x27, \x27Helvetica\x27, \x27Arial\x27, sans-serif;\n        \x7d\n"
    ++ s!"        text \x7b fill: {ctext}; \x7d\n"
    ++ s!"        .title \x7b \n            font-size: 24px; \n            font-weight: 700; \n            fill: {cacc}; \n        \x7d\n"
    ++ s!"        .subtitle \x7b \n            font-size: 14px; \n            fill: {csec}; \n        \x7d\n"
    ++ s!"        .entry-title \x7b\n            font-size: 15px;\n            font-weight: 600;\n            fill: {ctext};\n        \x7d\n"
    ++ s!"        .entry-company \x7b\n            font-size: 13px;\n            font-weight: 500;\n        \x7d\n"
    ++ s!"        .entry-date \x7b\n            font-size: 11px;\n            fill: {csec};\n        \x7d\n"
    ++ s!"        .entry-desc \x7b\n            font-size: 11px;\n            fill: {cmut};\n        \x7d\n"
    ++ s!"        .label-small \x7b\n            font-size: 9px;\n            fill: {csec};\n        \x7d\n"
    ++ s!"        .tech-badge \x7b\n            font-size: 9px;\n            font-weight: 600;\n            fill: {cacc};\n        \x7d\n"
    ++ s!"        .timeline-line \x7b\n            stroke: {cbor};\n            stroke-width: 3;\n        \x7d\n"
    ++ s!"        .timeline-dot \x7b\n            fill: {cacc};\n        \x7d\n"
    ++ s!"        .timeline-dot-work \x7b\n            fill: {csuc};\n        \x7d\n"
    ++ s!"        .timeline-dot-education \x7b\n            fill: {cpur};\n        \x7d\n"
    ++ s!"        .timeline-dot-current \x7b\n            fill: {cwar};\n        \x7d\n"
    ++ "        @keyframes fadeIn \x7b\n            from \x7b opacity: 0; \x7d\n            to \x7b opacity: 1; \x7d\n        \x7d\n"
    ++ "        @keyframes slideIn \x7b\n            from \x7b transform: translateX(-20px); opacity: 0; \x7d\n            to \x7b transform: translateX(0); opacity: 1; \x7d\n        \x7d\n"
    ++ "        @keyframes pulse \x7b\n            0%, 100% \x7b opacity: 1; \x7d\n            50% \x7b opacity: 0.5; \x7d\n        \x7d\n"
    ++ "        .animated \x7b animation: fadeIn 0.6s ease-out; \x7d\n"
    ++ "        .slide-in \x7b animation: slideIn 0.5s ease-out; \x7d\n"
    ++ "        .pulse \x7b animation: pulse 2s ease-in-out infinite; \x7d\n"
    ++ "        .cert-badge \x7b\n            font-size: 11px;\n            font-weight: 600;\n        \x7d\n        "

/-- Model of `total_experience.split('y')[0] if 'y' in total_experience else
'0'`: the prefix of the rendered experience string before its first `y` when
one occurs, else `"0"`. -/
def years_display_of (total_experience : String) : String :=
  if total_experience.data.contains 'y' then
    String.mk (total_experience.data.takeWhile (fun c => c ≠ 'y'))
  else "0"

/-- The SVG f-string template of `generate_compact_experience`, as a function
of the data-dependent pieces spliced into it (the theme colours, the years
figure, the first work entry's title and company, and the number of work
entries). -/
def compact_svg_render (t : Theme) (years_display cur_title cur_company : String)
    (nwork : Nat) : String :=
  let styles := create_styles t
  let ccard := t.card
  let csuc := t.success
  let cacc := t.accent
  s!"<svg width=\"450\" height=\"240\" xmlns=\"http://www.w3.org/2000/svg\">\n"
    ++ s!"    <style>{styles}</style>\n"
    ++ s!"    <rect width=\"450\" height=\"240\" fill=\"{ccard}\" rx=\"12\"/>\n    \n"
    ++ "    <text class=\"title animated\" x=\"24\" y=\"35\" style=\"font-size: 20px\">💼 Experience</text>\n"
    ++ "    <text class=\"subtitle animated\" x=\"24\" y=\"60\">Professional background</text>\n    \n"
    ++ "    <!-- Total Experience -->\n"
    ++ "    <g class=\"animated\" style=\"animation-delay: 0.2s\">\n"
    ++ s!"        <circle cx=\"80\" cy=\"130\" r=\"50\" fill=\"{csuc}\" opacity=\"0.15\"/>\n"
    ++ s!"        <text style=\"font-size: 32px; font-weight: 700\" x=\"80\" y=\"135\" text-anchor=\"middle\" \n              fill=\"{csuc}\">{years_display}</text>\n"
    ++ "        <text class=\"entry-date\" x=\"80\" y=\"155\" text-anchor=\"middle\">years</text>\n"
    ++ "    </g>\n    \n"
    ++ "    <!-- Recent Positions -->\n"
    ++ "    <g class=\"slide-in\" style=\"animation-delay: 0.3s\">\n"
    ++ "        <text class=\"subtitle\" x=\"160\" y=\"100\">Current Position</text>\n"
    ++ s!"        <text class=\"entry-title\" x=\"160\" y=\"125\" style=\"font-size: 13px\">{cur_title}</text>\n"
    ++ s!"        <text class=\"entry-company\" x=\"160\" y=\"145\" fill=\"{csuc}\">{cur_company}</text>\n"
    ++ "    </g>\n    \n"
    ++ "    <g class=\"slide-in\" style=\"animation-delay: 0.4s\">\n"
    ++ "        <text class=\"subtitle\" x=\"160\" y=\"170\">Total Positions</text>\n"
    ++ s!"        <text style=\"font-size: 24px; font-weight: 700\" x=\"160\" y=\"200\" fill=\"{cacc}\">{nwork}</text>\n"
    ++ "    </g>\n</svg>"

/-- Model of `CareerTimelineGenerator.generate_compact_experience`: the SVG
content string (the Python function writes this string to a file and returns
the path).  `now` is the current month index, used by
`_calculate_total_experience` to resolve `"present"` dates. -/
def generate_compact_experience (t : Theme) (timeline_entries : List CareerEntry)
    (now : Int) : String :=
  let work_entries := timeline_entries.filter (fun e => e.type == "work")
  compact_svg_render t
    (years_display_of (calculate_total_experience now work_entries))
    (match work_entries with | [] => "N/A" | e :: _ => e.title)
    (match work_entries with | [] => "N/A" | e :: _ => e.company)
    work_entries.length

end Dashboard

open Dashboard

/-! ## Concrete inputs for the scenario claims -/

/-- Job A of the experience-merge scenario: work from 2020-01 to 2021-12. -/
def c1_jobA : CareerEntry := ⟨"work", "Job A", "Company A", .month 2020 1, .month 2021 12⟩

/-- Job B of the experience-merge scenario: work from 2021-06 to 2022-06. -/
def c1_jobB : CareerEntry := ⟨"work", "Job B", "Company B", .month 2021 6, .month 2022 6⟩

/-- The four commit records of the streak scenario (UTC timestamps on
2024-01-01, 2024-01-02, 2024-01-03 and 2024-01-10). -/
def c4_commits : List CommitRec :=
  [⟨"r", ⟨2024, 1, 1, 12, 0, 0, some 0⟩⟩,
   ⟨"r", ⟨2024, 1, 2, 12, 0, 0, some 0⟩⟩,
   ⟨"r", ⟨2024, 1, 3, 12, 0, 0, some 0⟩⟩,
   ⟨"r", ⟨2024, 1, 10, 12, 0, 0, some 0⟩⟩]

/-- A single work entry starting and ending in the same month (2020-05), so
the merged duration is zero whole months. -/
def c6_entry : CareerEntry := ⟨"work", "X", "C", .month 2020 5, .month 2020 5⟩

/-! ## C1 — the experience-merge scenario

The spec counts months inclusively (Jan 2020 through Jun 2022 = 30 months,
naive 24 + 13 = 37).  The code's `relativedelta(end, start)` month count is
the difference of month indices, i.e. end-exclusive: Jan 2020 → Jun 2022 is
29 months, and the naive sum is 23 + 12 = 35. -/

/-- C1 (counterexample): on exactly the claimed input the merged total the
code computes is 29 months, not 30. -/
theorem C1_counterexample :
    merged_total_months 0 [c1_jobA, c1_jobB] = 29 ∧
    merged_total_months 0 [c1_jobA, c1_jobB] ≠ 30 := by
  constructor <;> decide

/-- C1 (amended): for the two claimed work entries the merged total experience
is 29 months (rendered as `"2y 5m"`), strictly less than the naive sum
23 + 12 = 35 months of the two intervals taken separately. -/
theorem C1_merge_scenario :
    merged_total_months 0 [c1_jobA, c1_jobB] = 29 ∧
    naive_total_months 0 [c1_jobA, c1_jobB] = 35 ∧
    merged_total_months 0 [c1_jobA, c1_jobB] < naive_total_months 0 [c1_jobA, c1_jobB] ∧
    calculate_total_experience 0 [c1_jobA, c1_jobB] = "2y 5m" := by
  refine ⟨by decide, by decide, by decide, by decide⟩

/-! ## C4 — the streak scenario -/

/-- C4: commits on 2024-01-01, 02, 03 and 2024-01-10, with today (UTC) being
2024-01-10, give current streak 1 and longest streak 3. -/
theorem C4_streak_scenario :
    calculate_activity_streak_of_commits (days_from_civil 2024 1 10) c4_commits = (1, 3) := by
  decide

/-! ## C6 — empty input and the sub-month sentinel

The code's sentinel is the string `"&lt; 1m"` — the XML-escaped spelling of
`"< 1m"` (the escaping is baked into the Python string literal), not the raw
string `"< 1m"` itself. -/

/-- C6 (counterexample): on a non-empty work-entry list of merged duration
zero months the function returns `"&lt; 1m"`, which is not the string
`"< 1m"` named by the claim. -/
theorem C6_counterexample :
    calculate_total_experience 0 [c6_entry] = "&lt; 1m" ∧
    calculate_total_experience 0 [c6_entry] ≠ "< 1m" := by
  constructor <;> decide

/-- C6 (amended): an empty career-entry list renders as `"0y"`, and a
non-empty entry list with at least one work period whose merged month total
is zero renders as the fixed sentinel `"&lt; 1m"` (the XML-escaped form of
`"< 1m"`), not a numeric zero. -/
theorem C6_zero_rendering (now : Int) (entries : List CareerEntry) :
    calculate_total_experience now [] = "0y" ∧
    (entries ≠ [] → work_periods now entries ≠ [] → merged_total_months now entries = 0 →
      calculate_total_experience now entries = "&lt; 1m") := by
  constructor
  · rfl
  · intro hne hwp htot
    unfold calculate_total_experience
    rw [if_neg (by simpa using hne), if_neg (by simpa using hwp)]
    unfold merged_total_months at htot
    rw [htot]
    rfl

/-- C6 (witness): the amended statement evaluated at the concrete sub-month
entry and at the empty list. -/
theorem C6_zero_rendering_witness :
    calculate_total_experience 0 ([] : List CareerEntry) = "0y" ∧
    calculate_total_experience 0 [c6_entry] = "&lt; 1m" :=
  ⟨(C6_zero_rendering 0 []).1,
   (C6_zero_rendering 0 [c6_entry]).2 (by decide) (by decide) (by decide)⟩

/-! ## C9 — batch chart generation -/

/-- The generation loop appends one filename or one error message per chart,
starting from any state. -/
theorem run_charts_from (charts : List ChartSpec) :
    ∀ g e, charts.foldl chart_step (g, e) =
      (g ++ (charts.filter (fun c => !chart_failed c)).map (fun c => c.filename),
       e ++ (charts.filter chart_failed).map chart_error_msg) := by
  induction charts with
  | nil => simp
  | cons c rest ih =>
    intro g e
    simp only [List.foldl_cons]
    cases hr : c.result with
    | raises msg =>
      rw [show chart_step (g, e) c = (g, e ++ [c.name ++ ": " ++ msg]) by
        simp [chart_step, hr]]
      rw [ih]
      simp [chart_failed, chart_error_msg, hr]
    | written ex size =>
      by_cases hx : ex = true ∧ 0 < size
      · rw [show chart_step (g, e) c = (g ++ [c.filename], e) by
          simp [chart_step, hr, hx.1, hx.2]]
        rw [ih]
        simp [chart_failed, hr, hx.1, hx.2]
      · rw [show chart_step (g, e) c = (g, e ++ [c.name ++ ": Empty file generated"]) by
          simp only [chart_step, hr]
          rw [if_neg (by simpa using hx)]]
        rw [ih]
        have hfail : chart_failed c = true := by
          simp only [chart_failed, hr, Bool.not_eq_true']
          cases ex with
          | false => simp
          | true =>
            rcases Nat.eq_zero_or_pos size with h0 | h0
            · simp [h0]
            · exact absurd ⟨rfl, h0⟩ hx
        simp [hfail, chart_error_msg, hr]

/-- C9: every chart is attempted; a chart whose generator raises (or whose
file comes out missing or empty) contributes exactly its error string to the
error list while the remaining charts still run; the generated-file list is
exactly the successful charts in order; and, when `data/metrics.json` exists,
the exit code is 0 iff no chart failed. -/
theorem C9_batch_isolation (charts : List ChartSpec) :
    (run_charts charts).1 = (charts.filter (fun c => !chart_failed c)).map (fun c => c.filename) ∧
    (run_charts charts).2 = (charts.filter chart_failed).map chart_error_msg ∧
    (dashboard_main true charts = 0 ↔ ∀ c ∈ charts, chart_failed c = false) := by
  have h := run_charts_from charts [] []
  refine ⟨by simpa [run_charts] using congrArg Prod.fst h,
          by simpa [run_charts] using congrArg Prod.snd h, ?_⟩
  have he : (run_charts charts).2 = (charts.filter chart_failed).map chart_error_msg := by
    simpa [run_charts] using congrArg Prod.snd h
  constructor
  · intro h0 c hc
    by_contra hfail
    have hmem : c ∈ charts.filter chart_failed :=
      List.mem_filter.mpr ⟨hc, by simpa using hfail⟩
    have : (run_charts charts).2 ≠ [] := by
      rw [he]
      intro habs
      rcases List.map_eq_nil_iff.mp habs with hnil
      rw [hnil] at hmem
      exact absurd hmem (List.not_mem_nil c)
    simp only [dashboard_main, Bool.not_true, if_false] at h0
    rcases hh : (run_charts charts).2 with _ | _
    · exact this hh
    · rw [hh] at h0
      simp at h0
  · intro hall
    have : charts.filter chart_failed = [] := by
      apply List.filter_eq_nil_iff.mpr
      intro c hc
      simp [hall c hc]
    simp [dashboard_main, he, this]


/-! ## C10 — monthly stats on naive timestamps -/

/-- When every timestamp in the list carries an offset, the aware-only count
succeeds. -/
theorem aware_count_ge_ok (m0 : Int) :
    ∀ l : List Timestamp, (∀ t ∈ l, t.utcOffset ≠ none) →
      ∃ n, aware_count_ge m0 l = .ok n := by
  intro l
  induction l with
  | nil => exact fun _ => ⟨0, rfl⟩
  | cons t rest ih =>
    intro hall
    obtain ⟨n, hn⟩ := ih (fun x hx => hall x (List.mem_cons_of_mem t hx))
    cases ho : t.utcOffset with
    | none => exact absurd ho (hall t (List.mem_cons_self t rest))
    | some off =>
      refine ⟨if m0 ≤ t.utc_seconds then n + 1 else n, ?_⟩
      simp only [aware_count_ge, ho, hn]
      rfl

/-- When some timestamp in the list is offset-naive, the aware-only count
fails (the modelled `TypeError`). -/
theorem aware_count_ge_err (m0 : Int) :
    ∀ l : List Timestamp, (∃ t ∈ l, t.utcOffset = none) →
      ∃ e, aware_count_ge m0 l = .error e := by
  intro l
  induction l with
  | nil => rintro ⟨t, ht, _⟩; exact absurd ht (List.not_mem_nil t)
  | cons t rest ih =>
    rintro ⟨t0, ht0, hnone⟩
    cases ho : t.utcOffset with
    | none =>
      refine ⟨naive_compare_error, ?_⟩
      simp only [aware_count_ge, ho]
    | some off =>
      have hmem : t0 ∈ rest := by
        rcases List.mem_cons.mp ht0 with h | h
        · subst h; rw [ho] at hnone; cases hnone
        · exact h
      obtain ⟨e, he⟩ := ih ⟨t0, hmem, hnone⟩
      refine ⟨e, ?_⟩
      simp only [aware_count_ge, ho, he]
      rfl

/-- C10: `calculate_monthly_stats` returns normally exactly when every
commit, pull-request and issue timestamp carries a UTC offset; one
offset-naive timestamp anywhere makes it raise (`TypeError`) — the edge the
recency ranking instead handles by normalizing both sides to naive. -/
theorem C10_monthly_naive_raises (now : Timestamp) (commits : List CommitRec)
    (prs : List PrRec) (issues : List IssueRec) :
    (calculate_monthly_stats now commits prs issues).isOk = true ↔
      ((∀ c ∈ commits, c.date.utcOffset ≠ none) ∧
       (∀ p ∈ prs, p.created_at.utcOffset ≠ none) ∧
       (∀ i ∈ issues, i.created_at.utcOffset ≠ none)) := by
  constructor
  · intro hok
    simp only [calculate_monthly_stats] at hok
    have hcommits : ∀ c ∈ commits, c.date.utcOffset ≠ none := by
      intro c hc hn
      obtain ⟨e, he⟩ := aware_count_ge_err (days_from_civil now.year now.month 1 * 86400)
        (commits.map fun x => x.date) ⟨c.date, List.mem_map_of_mem _ hc, hn⟩
      rw [he] at hok
      exact absurd hok (by simp [Except.bind, Except.isOk, Except.toBool])
    obtain ⟨n1, h1⟩ := aware_count_ge_ok (days_from_civil now.year now.month 1 * 86400)
      (commits.map fun x => x.date)
      (by intro t ht; rcases List.mem_map.mp ht with ⟨c, hc, rfl⟩; exact hcommits c hc)
    rw [h1] at hok
    have hprs : ∀ p ∈ prs, p.created_at.utcOffset ≠ none := by
      intro p hp hn
      obtain ⟨e, he⟩ := aware_count_ge_err (days_from_civil now.year now.month 1 * 86400)
        (prs.map fun x => x.created_at) ⟨p.created_at, List.mem_map_of_mem _ hp, hn⟩
      rw [he] at hok
      exact absurd hok (by simp [Except.bind, Except.isOk, Except.toBool])
    obtain ⟨n2, h2⟩ := aware_count_ge_ok (days_from_civil now.year now.month 1 * 86400)
      (prs.map fun x => x.created_at)
      (by intro t ht; rcases List.mem_map.mp ht with ⟨p, hp, rfl⟩; exact hprs p hp)
    rw [h2] at hok
    have hissues : ∀ i ∈ issues, i.created_at.utcOffset ≠ none := by
      intro i hi hn
      obtain ⟨e, he⟩ := aware_count_ge_err (days_from_civil now.year now.month 1 * 86400)
        (issues.map fun x => x.created_at) ⟨i.created_at, List.mem_map_of_mem _ hi, hn⟩
      rw [he] at hok
      exact absurd hok (by simp [Except.bind, Except.isOk, Except.toBool])
    exact ⟨hcommits, hprs, hissues⟩
  · rintro ⟨h1, h2, h3⟩
    obtain ⟨n1, e1⟩ := aware_count_ge_ok (days_from_civil now.year now.month 1 * 86400)
      (commits.map fun x => x.date)
      (by intro t ht; rcases List.mem_map.mp ht with ⟨c, hc, rfl⟩; exact h1 c hc)
    obtain ⟨n2, e2⟩ := aware_count_ge_ok (days_from_civil now.year now.month 1 * 86400)
      (prs.map fun x => x.created_at)
      (by intro t ht; rcases List.mem_map.mp ht with ⟨p, hp, rfl⟩; exact h2 p hp)
    obtain ⟨n3, e3⟩ := aware_count_ge_ok (days_from_civil now.year now.month 1 * 86400)
      (issues.map fun x => x.created_at)
      (by intro t ht; rcases List.mem_map.mp ht with ⟨i, hi, rfl⟩; exact h3 i hi)
    simp only [calculate_monthly_stats, e1, e2, e3]
    rfl

/-! ## C5 — the ranking functions -/

/-- Truncation bounds the length by the limit. -/
theorem take_length_le {α : Type} (l : List α) (n : Nat) : (l.take n).length ≤ n := by
  simp [List.length_take]

/-- Truncation of a sorted list is sorted. -/
theorem sorted_take {α : Type} {r : α → α → Prop} {l : List α}
    (h : List.Sorted r l) (n : Nat) : List.Sorted r (l.take n) :=
  List.Pairwise.sublist (List.take_sublist n l) h

/-- C5: each ranking returns at most `limit` entries, sorted non-increasingly
by its key (activity score, stars, commit count, and recency — equivalently
non-decreasing `days_ago`); the activity ranking keeps only entries with
positive score and the stars ranking only entries with positive stars. -/
theorem C5_rankings (repos : List Repo) (commits : List CommitRec) (prs : List PrRec)
    (issues : List IssueRec) (limit : Nat) (now_naive : Int) :
    (rank_by_activity repos commits prs issues limit).length ≤ limit ∧
    List.Sorted (fun a b => b.score ≤ a.score) (rank_by_activity repos commits prs issues limit) ∧
    (∀ e ∈ rank_by_activity repos commits prs issues limit, 0 < e.score) ∧
    (rank_by_stars repos limit).length ≤ limit ∧
    List.Sorted (fun a b => b.stars ≤ a.stars) (rank_by_stars repos limit) ∧
    (∀ e ∈ rank_by_stars repos limit, 0 < e.stars) ∧
    (rank_by_commits repos commits limit).length ≤ limit ∧
    List.Sorted (fun a b => b.commits ≤ a.commits) (rank_by_commits repos commits limit) ∧
    (rank_by_recent_activity now_naive repos limit).length ≤ limit ∧
    List.Sorted (fun a b => a.days_ago ≤ b.days_ago)
      (rank_by_recent_activity now_naive repos limit) := by
  haveI i1 : IsTotal ActivityEntry (fun a b => b.score ≤ a.score) :=
    ⟨fun a b => Nat.le_total b.score a.score⟩
  haveI i2 : IsTrans ActivityEntry (fun a b => b.score ≤ a.score) :=
    ⟨fun _ _ _ h1 h2 => le_trans h2 h1⟩
  haveI i3 : IsTotal StarsEntry (fun a b => b.stars ≤ a.stars) :=
    ⟨fun a b => Int.le_total b.stars a.stars⟩
  haveI i4 : IsTrans StarsEntry (fun a b => b.stars ≤ a.stars) :=
    ⟨fun _ _ _ h1 h2 => le_trans h2 h1⟩
  haveI i5 : IsTotal CommitsEntry (fun a b => b.commits ≤ a.commits) :=
    ⟨fun a b => Nat.le_total b.commits a.commits⟩
  haveI i6 : IsTrans CommitsEntry (fun a b => b.commits ≤ a.commits) :=
    ⟨fun _ _ _ h1 h2 => le_trans h2 h1⟩
  haveI i7 : IsTotal RecentEntry
      (fun a b => b.last_push.naive_seconds ≤ a.last_push.naive_seconds) :=
    ⟨fun a b => Int.le_total b.last_push.naive_seconds a.last_push.naive_seconds⟩
  haveI i8 : IsTrans RecentEntry
      (fun a b => b.last_push.naive_seconds ≤ a.last_push.naive_seconds) :=
    ⟨fun _ _ _ h1 h2 => le_trans h2 h1⟩
  refine ⟨take_length_le _ _, ?_, ?_, take_length_le _ _, ?_, ?_, take_length_le _ _, ?_,
    take_length_le _ _, ?_⟩
  · exact sorted_take (List.sorted_insertionSort _ _) _
  · intro e he
    have h1 : e ∈ List.insertionSort (fun a b => b.score ≤ a.score)
        (repos.filterMap (fun r =>
          let sc := commits.countP (fun c => c.repo == r.name)
          let sp := prs.countP (fun p => p.repo == r.name)
          let si := issues.countP (fun i => i.repo == r.name)
          let total := sc + sp + si
          if 0 < total then
            some { name := r.name, full_name := r.full_name, html_url := r.html_url.getD default_html_url,
                   language := r.language, score := total, commits := sc, prs := sp,
                   issues := si, stars := r.stars, priv := r.priv }
          else none)) := List.mem_of_mem_take he
    have h2 := (List.perm_insertionSort _ _).mem_iff.mp h1
    rcases List.mem_filterMap.mp h2 with ⟨r, _, hfr⟩
    dsimp only at hfr
    split at hfr
    · rename_i hpos
      cases hfr
      exact hpos
    · cases hfr
  · exact sorted_take (List.sorted_insertionSort _ _) _
  · intro e he
    have h1 : e ∈ List.insertionSort (fun a b => b.stars ≤ a.stars)
        ((repos.filter (fun r => 0 < r.stars)).map (fun r =>
          { name := r.name, full_name := r.full_name, language := r.language,
            stars := r.stars, forks := r.forks, description := r.description : StarsEntry })) :=
      List.mem_of_mem_take he
    have h2 := (List.perm_insertionSort _ _).mem_iff.mp h1
    rcases List.mem_map.mp h2 with ⟨r, hr, rfl⟩
    have := List.mem_filter.mp hr
    simpa using this.2
  · exact sorted_take (List.sorted_insertionSort _ _) _
  · -- recent activity: sorted descending by push time implies non-decreasing days_ago
    have hsorted : List.Sorted
        (fun (a b : RecentEntry) => b.last_push.naive_seconds ≤ a.last_push.naive_seconds)
        (List.insertionSort
          (fun a b => b.last_push.naive_seconds ≤ a.last_push.naive_seconds)
          (repos.filterMap (fun r =>
            match r.pushed_at with
            | none => none
            | some ts =>
              some { name := r.name, full_name := r.full_name, language := r.language,
                     last_push := ts, days_ago := (now_naive - ts.naive_seconds) / 86400,
                     priv := r.priv }))) := List.sorted_insertionSort _ _
    have hdays : ∀ e ∈ List.insertionSort
        (fun (a b : RecentEntry) => b.last_push.naive_seconds ≤ a.last_push.naive_seconds)
        (repos.filterMap (fun r =>
          match r.pushed_at with
          | none => none
          | some ts =>
            some { name := r.name, full_name := r.full_name, language := r.language,
                   last_push := ts, days_ago := (now_naive - ts.naive_seconds) / 86400,
                   priv := r.priv })),
        e.days_ago = (now_naive - e.last_push.naive_seconds) / 86400 := by
      intro e he
      have h2 := (List.perm_insertionSort _ _).mem_iff.mp he
      rcases List.mem_filterMap.mp h2 with ⟨r, _, hfr⟩
      cases hp : r.pushed_at with
      | none => rw [hp] at hfr; cases hfr
      | some ts => rw [hp] at hfr; cases hfr; rfl
    have : List.Sorted (fun (a b : RecentEntry) => a.days_ago ≤ b.days_ago)
        (List.insertionSort
          (fun a b => b.last_push.naive_seconds ≤ a.last_push.naive_seconds)
          (repos.filterMap (fun r =>
            match r.pushed_at with
            | none => none
            | some ts =>
              some { name := r.name, full_name := r.full_name, language := r.language,
                     last_push := ts, days_ago := (now_naive - ts.naive_seconds) / 86400,
                     priv := r.priv }))) := by
      refine List.Pairwise.imp_of_mem ?_ hsorted
      intro a b ha hb hle
      rw [hdays a ha, hdays b hb]
      exact Int.ediv_le_ediv (by norm_num) (by omega)
    exact sorted_take this _

/-! ## C8 — renderer determinism and call-time dependence -/

/-- A concrete theme palette (the shape of `themes/dark.json`). -/
def c8_theme : Theme :=
  ⟨"#c9d1d9", "#58a6ff", "#8b949e", "#6e7681", "#30363d", "#3fb950", "#bc8cff",
   "#d29922", "#161b22", "#0d1117"⟩

/-- A work entry still running (`date_end` is `"present"`). -/
def c8_present_entry : CareerEntry := ⟨"work", "Dev", "Acme", .month 2020 1, .present⟩

/-- A work entry with two explicit month dates (no `"present"`). -/
def c8_plain_entry : CareerEntry := ⟨"work", "Dev", "Acme", .month 2019 3, .month 2020 9⟩

/-- Strings of different lengths are different. -/
theorem string_ne_of_length_ne (s t : String) (h : s.length ≠ t.length) : s ≠ t :=
  fun e => h (by rw [e])

/-- C8 (counterexample): the compact-experience renderer, called twice with
identical career data and theme but at two different current times, returns
two different SVG strings — the `"present"` end date is resolved to
`datetime.now()`, so the output depends on the call time (at the first time
the experience shows 1 year, at the second 15 years). -/
theorem C8_counterexample :
    generate_compact_experience c8_theme [c8_present_entry] (2021 * 12 + 1) ≠
      generate_compact_experience c8_theme [c8_present_entry] (2035 * 12 + 1) := by
  have h1 : years_display_of (calculate_total_experience (2021 * 12 + 1)
      ([c8_present_entry].filter (fun e => e.type == "work"))) = "1" := by decide
  have h2 : years_display_of (calculate_total_experience (2035 * 12 + 1)
      ([c8_present_entry].filter (fun e => e.type == "work"))) = "15" := by decide
  simp only [generate_compact_experience, h1, h2]
  apply string_ne_of_length_ne
  simp [compact_svg_render, String.length_append]
  decide

/-- The experience total does not depend on the current time when no career
date is the sentinel `"present"`. -/
theorem calculate_total_experience_no_present (es : List CareerEntry) (n1 n2 : Int)
    (h : ∀ e ∈ es, e.date_start ≠ CareerDate.present ∧ e.date_end ≠ CareerDate.present) :
    calculate_total_experience n1 es = calculate_total_experience n2 es := by
  have hwp : work_periods n1 es = work_periods n2 es := by
    unfold work_periods
    apply List.map_congr_left
    intro e he
    obtain ⟨h1, h2⟩ := h e (List.mem_of_mem_filter he)
    cases hds : e.date_start with
    | present => exact absurd hds h1
    | month y m =>
      cases hde : e.date_end with
      | present => exact absurd hde h2
      | month y' m' => simp [parse_date]
  unfold calculate_total_experience
  rw [hwp]

/-- C8 (amended): each rendering call is a deterministic function of its
inputs, its theme and the current time; the current time reaches the output
only through `"present"` career dates (for this renderer — the activity
calendar is likewise anchored at today's date), so two calls made with the
same data and theme are byte-identical whenever no career date is
`"present"`, regardless of when they run. -/
theorem C8_deterministic_without_present (t : Theme) (entries : List CareerEntry)
    (n1 n2 : Int)
    (h : ∀ e ∈ entries, e.date_start ≠ CareerDate.present ∧ e.date_end ≠ CareerDate.present) :
    generate_compact_experience t entries n1 = generate_compact_experience t entries n2 := by
  unfold generate_compact_experience
  dsimp only
  rw [calculate_total_experience_no_present (entries.filter (fun e => e.type == "work")) n1 n2
    (fun e he => h e (List.mem_of_mem_filter he))]

/-- C8 (witness): the amended statement at a concrete theme and a concrete
entry with explicit month dates, for two different call times. -/
theorem C8_deterministic_witness :
    (∀ e ∈ [c8_plain_entry],
      e.date_start ≠ CareerDate.present ∧ e.date_end ≠ CareerDate.present) ∧
    generate_compact_experience c8_theme [c8_plain_entry] 0 =
      generate_compact_experience c8_theme [c8_plain_entry] 100 :=
  ⟨by decide, C8_deterministic_without_present c8_theme [c8_plain_entry] 0 100 (by decide)⟩

/-! ## C7 — daily buckets use the timestamp's own calendar date, not UTC -/

/-- A commit at 2024-01-01T23:30:00+00:00. -/
def c7_commit_utc : CommitRec := ⟨"r", ⟨2024, 1, 1, 23, 30, 0, some 0⟩⟩

/-- A commit at 2024-01-02T01:30:00+02:00 — the same instant as
`c7_commit_utc`, written with a +02:00 offset. -/
def c7_commit_offset : CommitRec := ⟨"r", ⟨2024, 1, 2, 1, 30, 0, some 120⟩⟩


/-- Bumping one key changes exactly that key's stored count. -/
theorem date_count_bump (e d : Int × Int × Int) :
    ∀ acc, date_count (bump_date acc e) d =
      if e = d then date_count acc d + 1 else date_count acc d := by
  intro acc
  induction acc with
  | nil => by_cases he : e = d <;> simp [bump_date, date_count, he]
  | cons p rest ih =>
    obtain ⟨k, n⟩ := p
    by_cases hk : k = e <;> by_cases hd : k = d <;> by_cases hed : e = d <;>
      simp_all [bump_date, date_count]

/-- Folding the grouping over a date list adds that list's occurrence counts
on top of any starting dictionary. -/
theorem date_count_foldl (ds : List (Int × Int × Int)) :
    ∀ (acc : List ((Int × Int × Int) × Nat)) (d : Int × Int × Int),
      date_count (ds.foldl bump_date acc) d = date_count acc d + ds.count d := by
  induction ds with
  | nil => intro acc d; simp
  | cons e ds ih =>
    intro acc d
    rw [List.foldl_cons, ih, date_count_bump]
    by_cases he : e = d
    · rw [if_pos he, he, List.count_cons_self]
      omega
    · rw [if_neg he, List.count_cons_of_ne (fun hde => he hde.symm)]

/-- The key list after a bump: unchanged when the key was present, the key
appended otherwise. -/
theorem bump_date_keys (e : Int × Int × Int) :
    ∀ acc : List ((Int × Int × Int) × Nat),
      (bump_date acc e).map Prod.fst =
        if e ∈ acc.map Prod.fst then acc.map Prod.fst else acc.map Prod.fst ++ [e] := by
  intro acc
  induction acc with
  | nil => simp [bump_date]
  | cons p rest ih =>
    obtain ⟨k, n⟩ := p
    by_cases hk : k = e
    · subst hk; simp [bump_date]
    · have hne : ¬ e = k := fun h => hk h.symm
      by_cases hmem : e ∈ rest.map Prod.fst
      · simp [bump_date, hk, ih, hmem, hne]
      · simp [bump_date, hk, ih, hmem, hne]

/-- The grouping fold keeps the key list duplicate-free. -/
theorem foldl_bump_keys_nodup (ds : List (Int × Int × Int)) :
    ∀ acc : List ((Int × Int × Int) × Nat), (acc.map Prod.fst).Nodup →
      ((ds.foldl bump_date acc).map Prod.fst).Nodup := by
  induction ds with
  | nil => exact fun acc h => h
  | cons e ds ih =>
    intro acc h
    rw [List.foldl_cons]
    apply ih
    rw [bump_date_keys]
    by_cases hmem : e ∈ acc.map Prod.fst
    · simpa [hmem] using h
    · rw [if_neg hmem]
      have hdisj : List.Disjoint (acc.map Prod.fst) [e] := by
        intro x hx hxe
        rw [List.mem_singleton] at hxe
        exact hmem (hxe ▸ hx)
      exact h.append (List.nodup_singleton e) hdisj

/-- One bump keeps every stored count positive. -/
theorem bump_date_pos (e : Int × Int × Int) :
    ∀ acc : List ((Int × Int × Int) × Nat), (∀ p ∈ acc, 0 < p.2) →
      ∀ p ∈ bump_date acc e, 0 < p.2 := by
  intro acc
  induction acc with
  | nil =>
    intro _ p hp
    simp only [bump_date, List.mem_singleton] at hp
    subst hp
    exact Nat.one_pos
  | cons q rest ih =>
    obtain ⟨k, n⟩ := q
    intro h p hp
    by_cases hk : k = e
    · rw [bump_date, if_pos hk] at hp
      rcases List.mem_cons.mp hp with rfl | hp'
      · exact Nat.succ_pos n
      · exact h p (List.mem_cons_of_mem _ hp')
    · rw [bump_date, if_neg hk] at hp
      rcases List.mem_cons.mp hp with rfl | hp'
      · exact h _ (List.mem_cons_self _ _)
      · exact ih (fun q hq => h q (List.mem_cons_of_mem _ hq)) p hp'

/-- The grouping fold keeps every stored count positive. -/
theorem foldl_bump_pos (ds : List (Int × Int × Int)) :
    ∀ acc : List ((Int × Int × Int) × Nat), (∀ p ∈ acc, 0 < p.2) →
      ∀ p ∈ ds.foldl bump_date acc, 0 < p.2 := by
  induction ds with
  | nil => exact fun acc h => h
  | cons e ds ih =>
    intro acc h
    rw [List.foldl_cons]
    exact ih _ (bump_date_pos e acc h)

/-- An absent key stores count 0. -/
theorem date_count_of_not_mem (d : Int × Int × Int) :
    ∀ acc : List ((Int × Int × Int) × Nat), d ∉ acc.map Prod.fst →
      date_count acc d = 0 := by
  intro acc
  induction acc with
  | nil => exact fun _ => rfl
  | cons p rest ih =>
    obtain ⟨k, n⟩ := p
    intro h
    rw [List.map_cons] at h
    have hk : ¬ k = d := fun hkd => h (by rw [hkd]; exact List.mem_cons_self _ _)
    rw [show date_count ((k, n) :: rest) d = date_count rest d by
      simp [date_count, hk]]
    exact ih (fun hm => h (List.mem_cons_of_mem _ hm))

/-- With duplicate-free keys, a stored entry is what the lookup returns. -/
theorem date_count_of_mem (d : Int × Int × Int) (n : Nat) :
    ∀ acc : List ((Int × Int × Int) × Nat), (d, n) ∈ acc →
      (acc.map Prod.fst).Nodup → date_count acc d = n := by
  intro acc
  induction acc with
  | nil => exact fun hmem _ => absurd hmem (List.not_mem_nil _)
  | cons p rest ih =>
    obtain ⟨k, m⟩ := p
    intro hmem hnodup
    rw [List.map_cons] at hnodup
    obtain ⟨hknot, hrest⟩ := List.nodup_cons.mp hnodup
    rcases List.mem_cons.mp hmem with he | hmem'
    · injection he with h1 h2
      subst h1
      subst h2
      simp [date_count]
    · have hkd : ¬ k = d := by
        intro hkd
        subst hkd
        exact hknot (List.mem_map.mpr ⟨(k, n), hmem', rfl⟩)
      rw [show date_count ((k, m) :: rest) d = date_count rest d by
        simp [date_count, hkd]]
      exact ih hmem' hrest

/-- A present key is stored with the count the lookup returns. -/
theorem mem_of_date_count (d : Int × Int × Int) :
    ∀ acc : List ((Int × Int × Int) × Nat), d ∈ acc.map Prod.fst →
      (d, date_count acc d) ∈ acc := by
  intro acc
  induction acc with
  | nil => intro hmem; simp at hmem
  | cons p rest ih =>
    obtain ⟨k, m⟩ := p
    intro hmem
    rw [List.map_cons] at hmem
    by_cases hk : k = d
    · subst hk
      rw [show date_count ((k, m) :: rest) k = m by simp [date_count]]
      exact List.mem_cons_self _ _
    · have hd : d ∈ rest.map Prod.fst := by
        rcases List.mem_cons.mp hmem with h | h
        · exact absurd h.symm hk
        · exact h
      rw [show date_count ((k, m) :: rest) d = date_count rest d by
        simp [date_count, hk]]
      exact List.mem_cons_of_mem _ (ih hd)

/-- C7 (amended): `calculate_daily_stats` buckets each commit by the calendar
date carried by the commit's own timestamp fields (its "local" date): an
entry `(d, n)` appears in `commits_per_day` exactly when `n` is the nonzero
number of commits whose timestamp carries the date `d`. -/
theorem C7_local_date_grouping (commits : List CommitRec) (d : Int × Int × Int) (n : Nat) :
    (d, n) ∈ commits_per_day commits ↔
      (n = (commits.map (fun c => c.date.local_date)).count d ∧ n ≠ 0) := by
  rw [show commits_per_day commits =
      List.insertionSort (fun p q => date_lex_le p.1 q.1) (commits_by_date commits) from rfl,
    (List.perm_insertionSort _ _).mem_iff]
  have heq : commits_by_date commits =
      (commits.map (fun c => c.date.local_date)).foldl bump_date [] := by
    unfold commits_by_date
    rw [List.foldl_map]
  rw [heq]
  have hnodup := foldl_bump_keys_nodup (commits.map (fun c => c.date.local_date)) []
    (by simp)
  have hpos := foldl_bump_pos (commits.map (fun c => c.date.local_date)) [] (by simp)
  have hcount : date_count ((commits.map (fun c => c.date.local_date)).foldl bump_date []) d =
      (commits.map (fun c => c.date.local_date)).count d := by
    rw [date_count_foldl]
    simp [date_count]
  constructor
  · intro hmem
    have h1 := date_count_of_mem d n _ hmem hnodup
    have h2 := hpos _ hmem
    rw [hcount] at h1
    exact ⟨h1.symm, by omega⟩
  · rintro ⟨rfl, hne⟩
    have hdmem : d ∈ ((commits.map (fun c => c.date.local_date)).foldl bump_date []).map
        Prod.fst := by
      by_contra hnot
      have := date_count_of_not_mem d _ hnot
      rw [hcount] at this
      exact hne this
    have := mem_of_date_count d _ hdmem
    rwa [hcount] at this

/-- C7 (counterexample): two commits at the same instant — one written with a
UTC offset of +00:00, one with +02:00 — are bucketed under two different
calendar dates; the bucket of the second is its own local date 2024-01-02,
not its UTC calendar date 2024-01-01. -/
theorem C7_counterexample :
    c7_commit_utc.date.utc_seconds = c7_commit_offset.date.utc_seconds ∧
    c7_commit_offset.date.local_date ≠ c7_commit_offset.date.utc_date ∧
    commits_per_day [c7_commit_utc, c7_commit_offset] =
      [((2024, 1, 1), 1), ((2024, 1, 2), 1)] ∧
    commits_per_day [c7_commit_utc, c7_commit_offset] ≠ [((2024, 1, 1), 2)] := by
  refine ⟨by decide, by decide, by decide, by decide⟩

/-! ## C3 — general streak properties

The spec claims `longest ≥ current` fails for some input.  It does not: the
current streak, when active, is the length of the trailing run of consecutive
dates, and the forward longest-streak pass always covers that trailing run,
so `longest ≥ current` holds for every input.  The other two claimed
properties (longest ≥ 1 on non-empty input, current = 0 when the most recent
date is more than one day old) do hold. -/

/-- The backward walk never exceeds the list length. -/
theorem desc_run_le_length (l : List Int) : ∀ a : Int, desc_run (a :: l) ≤ l.length + 1 := by
  induction l with
  | nil => intro a; exact Nat.le_refl 1
  | cons b rest ih =>
    intro a
    have hrw : desc_run (a :: b :: rest) =
        if a - b = 1 then 1 + desc_run (b :: rest) else 1 := rfl
    rw [hrw]
    have := ih b
    split <;> simp <;> omega

/-- The backward walk of a non-empty list never exceeds its length. -/
theorem desc_run_le_length' (l : List Int) (h : l ≠ []) : desc_run l ≤ l.length := by
  rcases l with _ | ⟨a, t⟩
  · exact absurd rfl h
  · simpa using desc_run_le_length t a

/-- The backward walk counts at least one day. -/
theorem desc_run_pos (l : List Int) : 1 ≤ desc_run l := by
  match l with
  | [] => exact Nat.le_refl 1
  | [a] => exact Nat.le_refl 1
  | a :: b :: rest =>
    have hrw : desc_run (a :: b :: rest) =
        if a - b = 1 then 1 + desc_run (b :: rest) else 1 := rfl
    rw [hrw]
    split <;> omega

/-- Appending one more (older) date to the backward walk's input: the walk
grows by one exactly when it already covered the whole list and the old last
element connects to the new one. -/
theorem desc_run_append (ys : List Int) :
    ∀ a p : Int, desc_run ((ys ++ [a]) ++ [p]) =
      if desc_run (ys ++ [a]) = ys.length + 1 ∧ a - p = 1 then ys.length + 2
      else desc_run (ys ++ [a]) := by
  induction ys with
  | nil =>
    intro a p
    have h1 : desc_run ([a] ++ [p]) = if a - p = 1 then 1 + desc_run [p] else 1 := rfl
    by_cases hap : a - p = 1 <;> simp [h1, desc_run, hap]
  | cons y ys' ih =>
    intro a p
    rcases ys' with _ | ⟨z, zs⟩
    · have h1 : desc_run (([y] ++ [a]) ++ [p]) =
          if y - a = 1 then 1 + desc_run ([a] ++ [p]) else 1 := rfl
      have h2 : desc_run ([a] ++ [p]) = if a - p = 1 then 1 + desc_run [p] else 1 := rfl
      have h3 : desc_run ([y] ++ [a]) = if y - a = 1 then 1 + desc_run [a] else 1 := rfl
      by_cases hya : y - a = 1 <;> by_cases hap : a - p = 1 <;>
        simp [h1, h2, h3, hya, hap, desc_run]
    · have hLHS : desc_run (((y :: z :: zs) ++ [a]) ++ [p]) =
          if y - z = 1 then 1 + desc_run (((z :: zs) ++ [a]) ++ [p]) else 1 := rfl
      have hRHS : desc_run ((y :: z :: zs) ++ [a]) =
          if y - z = 1 then 1 + desc_run ((z :: zs) ++ [a]) else 1 := rfl
      by_cases hyz : y - z = 1
      · rw [hLHS, hRHS, if_pos hyz, if_pos hyz, ih a p]
        by_cases hin : desc_run ((z :: zs) ++ [a]) = (z :: zs).length + 1 ∧ a - p = 1
        · rw [if_pos hin]
          have houter : 1 + desc_run ((z :: zs) ++ [a]) = (y :: z :: zs).length + 1 ∧
              a - p = 1 := by
            refine ⟨?_, hin.2⟩
            have := hin.1
            simp at this ⊢
            omega
          rw [if_pos houter]
          simp only [List.length_cons]
          omega
        · rw [if_neg hin]
          have houter : ¬ (1 + desc_run ((z :: zs) ++ [a]) = (y :: z :: zs).length + 1 ∧
              a - p = 1) := by
            intro ⟨h1, h2⟩
            apply hin
            refine ⟨?_, h2⟩
            simp at h1 ⊢
            omega
          rw [if_neg houter]
      · rw [hLHS, hRHS, if_neg hyz, if_neg hyz]
        have hbound : desc_run ((z :: zs) ++ [a]) ≤ (z :: zs ++ [a]).length := by
          have := desc_run_le_length' ((z :: zs) ++ [a]) (by simp)
          simpa using this
        have houter : ¬ ((1 : Nat) = (y :: z :: zs).length + 1 ∧ a - p = 1) := by
          intro ⟨h1, _⟩
          simp at h1
        rw [if_neg houter]

/-- The longest-streak pass dominates the trailing run: starting from any
accumulated run length `temp ≥ 1` and any current maximum, the loop's result
is at least the backward walk of the whole (reversed) input — and at least
`temp + l.length` when the whole input is one consecutive run. -/
theorem longest_loop_ge (l : List Int) :
    ∀ (prev : Int) (temp long : Nat), 1 ≤ temp →
      (if desc_run ((prev :: l).reverse) = l.length + 1 then temp + l.length
       else desc_run ((prev :: l).reverse)) ≤ longest_loop prev temp long l := by
  induction l with
  | nil =>
    intro prev temp long htemp
    have h1 : (prev :: ([] : List Int)).reverse = [prev] := rfl
    have h2 : longest_loop prev temp long [] = max long temp := rfl
    rw [h1, h2]
    have h3 : desc_run [prev] = 1 := rfl
    rw [h3]
    simp only [List.length_nil, Nat.zero_add, Nat.add_zero, if_pos rfl]
    exact Nat.le_max_right long temp
  | cons d rest ih =>
    intro prev temp long htemp
    have hrev : (prev :: d :: rest).reverse = (rest.reverse ++ [d]) ++ [prev] := by
      simp
    have hrev2 : (d :: rest).reverse = rest.reverse ++ [d] := by simp
    have hll : longest_loop prev temp long (d :: rest) =
        if d - prev = 1 then longest_loop d (temp + 1) (max long (temp + 1)) rest
        else longest_loop d 1 long rest := rfl
    rw [hrev, hll, desc_run_append rest.reverse d prev]
    have hlen : rest.reverse.length = rest.length := by simp
    by_cases hdp : d - prev = 1
    · rw [if_pos hdp]
      have hIH := ih d (temp + 1) (max long (temp + 1)) (by omega)
      rw [hrev2] at hIH
      by_cases hin : desc_run (rest.reverse ++ [d]) = rest.length + 1
      · have hcond : desc_run (rest.reverse ++ [d]) = rest.reverse.length + 1 ∧
            d - prev = 1 := ⟨by omega, hdp⟩
        rw [if_pos hcond]
        rw [if_pos (by omega : desc_run (rest.reverse ++ [d]) = rest.length + 1)] at hIH
        have : rest.reverse.length + 2 = (rest.length + 1) + 1 := by omega
        rw [show (if rest.reverse.length + 2 = (d :: rest).length + 1 then
            temp + (d :: rest).length else rest.reverse.length + 2) = temp + rest.length + 1 by
          rw [if_pos (by simp)]
          simp only [List.length_cons]
          omega]
        omega
      · have hcond : ¬ (desc_run (rest.reverse ++ [d]) = rest.reverse.length + 1 ∧
            d - prev = 1) := by
          intro ⟨h1, _⟩
          exact hin (by omega)
        rw [if_neg hcond]
        rw [if_neg (by omega : ¬ desc_run (rest.reverse ++ [d]) = rest.length + 1)] at hIH
        have hbd : desc_run (rest.reverse ++ [d]) ≤ rest.length + 1 := by
          have := desc_run_le_length' (rest.reverse ++ [d]) (by simp)
          simpa using this
        rw [if_neg (by simp; omega : ¬ desc_run (rest.reverse ++ [d]) = (d :: rest).length + 1)]
        omega
    · rw [if_neg hdp]
      have hIH := ih d 1 long (Nat.le_refl 1)
      rw [hrev2] at hIH
      have hcond : ¬ (desc_run (rest.reverse ++ [d]) = rest.reverse.length + 1 ∧
          d - prev = 1) := fun h => hdp h.2
      rw [if_neg hcond]
      have hbd : desc_run (rest.reverse ++ [d]) ≤ rest.length + 1 := by
        have := desc_run_le_length' (rest.reverse ++ [d]) (by simp)
        simpa using this
      rw [if_neg (by simp; omega : ¬ desc_run (rest.reverse ++ [d]) = (d :: rest).length + 1)]
      by_cases hin : desc_run (rest.reverse ++ [d]) = rest.length + 1
      · rw [if_pos hin] at hIH
        omega
      · rw [if_neg hin] at hIH
        omega

/-- The longest-streak loop's result is at least 1 whenever its running count
is. -/
theorem longest_loop_pos (l : List Int) :
    ∀ (prev : Int) (temp long : Nat), 1 ≤ temp → 1 ≤ longest_loop prev temp long l := by
  induction l with
  | nil =>
    intro prev temp long htemp
    have h : longest_loop prev temp long [] = max long temp := rfl
    rw [h]
    omega
  | cons d rest ih =>
    intro prev temp long htemp
    have h : longest_loop prev temp long (d :: rest) =
        if d - prev = 1 then longest_loop d (temp + 1) (max long (temp + 1)) rest
        else longest_loop d 1 long rest := rfl
    rw [h]
    split
    · exact ih d (temp + 1) (max long (temp + 1)) (by omega)
    · exact ih d 1 long (Nat.le_refl 1)

/-- The streak calculator never reports a current streak above the longest
streak. -/
theorem longest_ge_current (today : Int) (commits : List Int) :
    (calculate_activity_streak today commits).1 ≤ (calculate_activity_streak today commits).2 := by
  unfold calculate_activity_streak
  by_cases hemp : commits.isEmpty
  · simp [hemp]
  · rw [if_neg hemp]
    dsimp only
    rcases hu : unique_dates commits with _ | ⟨d, rest⟩
    · simp [current_streak, longest_streak]
    · rcases hr : (d :: rest).reverse with _ | ⟨last, revRest⟩
      · exact absurd hr (by simp)
      · simp only [current_streak, longest_streak, hr]
        by_cases hcond : today - last ≤ 1
        · rw [if_pos hcond]
          have hc : desc_run (last :: revRest) = desc_run ((d :: rest).reverse) := by rw [hr]
          rw [hc]
          have hM := longest_loop_ge rest d 1 0 (Nat.le_refl 1)
          by_cases hin : desc_run ((d :: rest).reverse) = rest.length + 1
          · rw [if_pos hin] at hM
            omega
          · rw [if_neg hin] at hM
            exact hM
        · rw [if_neg hcond]
          exact Nat.zero_le _

/-- C3 (counterexample): the claim's existential part is false — there is no
commit-date set and no current date on which the computed longest streak is
strictly below the computed current streak. -/
theorem C3_counterexample :
    ¬ ∃ (today : Int) (dates : List Int),
      (calculate_activity_streak today dates).2 < (calculate_activity_streak today dates).1 := by
  rintro ⟨t, ds, h⟩
  exact absurd (longest_ge_current t ds) (by omega)

/-- C3 (amended): for every commit-date set, the longest streak is at least 1
when the set is non-empty, the current streak is 0 whenever every active date
lies more than one day before today, and the longest streak is always at
least the current streak (the claimed failure of that inequality does not
occur). -/
theorem C3_streak_properties (today : Int) (dates : List Int) :
    (dates ≠ [] → 1 ≤ (calculate_activity_streak today dates).2) ∧
    ((∀ x ∈ dates, 1 < today - x) → (calculate_activity_streak today dates).1 = 0) ∧
    (calculate_activity_streak today dates).1 ≤ (calculate_activity_streak today dates).2 := by
  refine ⟨?_, ?_, longest_ge_current today dates⟩
  · intro hne
    unfold calculate_activity_streak
    rw [if_neg (by simpa using hne)]
    dsimp only
    rcases hu : unique_dates dates with _ | ⟨d, rest⟩
    · have : dates.dedup = [] := by
        have hlen := (List.perm_insertionSort (· ≤ ·) dates.dedup).length_eq
        unfold unique_dates at hu
        rw [hu] at hlen
        exact List.length_eq_zero.mp hlen.symm
      exact absurd ((List.dedup_eq_nil dates).mp this) hne
    · simp only [longest_streak]
      exact longest_loop_pos rest d 1 0 (Nat.le_refl 1)
  · intro hfar
    unfold calculate_activity_streak
    by_cases hemp : dates.isEmpty
    · simp [hemp]
    · rw [if_neg hemp]
      dsimp only
      rcases hu : unique_dates dates with _ | ⟨d, rest⟩
      · simp [current_streak]
      · rcases hr : (d :: rest).reverse with _ | ⟨last, revRest⟩
        · exact absurd hr (by simp)
        · simp only [current_streak, hr]
          have hlastmem : last ∈ dates := by
            have h1 : last ∈ (d :: rest).reverse := by rw [hr]; exact List.mem_cons_self _ _
            have h2 : last ∈ unique_dates dates := by
              rw [hu]; exact List.mem_reverse.mp h1
            unfold unique_dates at h2
            have h3 := (List.perm_insertionSort (· ≤ ·) dates.dedup).mem_iff.mp h2
            exact List.mem_dedup.mp h3
          rw [if_neg (by have := hfar last hlastmem; omega)]

/-- C3 (witness): the amended statement at concrete inputs — a single date
five days ago gives longest ≥ 1, and current streak 0. -/
theorem C3_streak_properties_witness :
    1 ≤ (calculate_activity_streak 10 [5]).2 ∧ (calculate_activity_streak 10 [5]).1 = 0 :=
  ⟨(C3_streak_properties 10 [5]).1 (by decide),
   (C3_streak_properties 10 [5]).2.1 (by decide)⟩

/-! ## C2 — merged total vs. naive sum

The merged total equals the cardinality of the union of the month sets, which
is at most the sum of the individual cardinalities, with equality exactly
when the periods are pairwise disjoint. -/

/-- Membership in the union of the periods' month sets. -/
theorem mem_periods_union (x : Int) :
    ∀ l : List (Int × Int), x ∈ periods_union l ↔ ∃ p ∈ l, x ∈ period_set p := by
  intro l
  induction l with
  | nil => simp [periods_union]
  | cons p rest ih =>
    simp only [periods_union, Finset.mem_union, ih, List.mem_cons]
    constructor
    · rintro (h | ⟨q, hq, hx⟩)
      · exact ⟨p, Or.inl rfl, h⟩
      · exact ⟨q, Or.inr hq, hx⟩
    · rintro ⟨q, hq | hq, hx⟩
      · subst hq; exact Or.inl hx
      · exact Or.inr ⟨q, hq, hx⟩

/-- The merge loop never touches entries below the top of its stack: folding
with a deeper stack appends the extra entries unchanged. -/
theorem foldl_merge_append (l : List (Int × Int)) :
    ∀ (x : Int × Int) (xs rest : List (Int × Int)),
      l.foldl merge_step (x :: xs ++ rest) = l.foldl merge_step (x :: xs) ++ rest := by
  induction l with
  | nil => intros; rfl
  | cons p l' ih =>
    intro x xs rest
    rw [List.foldl_cons, List.foldl_cons]
    obtain ⟨ls, le⟩ := x
    by_cases hp : p.1 ≤ le
    · have h1 : merge_step ((ls, le) :: xs ++ rest) p = (ls, max le p.2) :: xs ++ rest := by
        simp [merge_step, hp]
      have h2 : merge_step ((ls, le) :: xs) p = (ls, max le p.2) :: xs := by
        simp [merge_step, hp]
      rw [h1, h2]
      exact ih _ _ _
    · have h1 : merge_step ((ls, le) :: xs ++ rest) p =
          p :: ((ls, le) :: xs ++ rest) := by
        simp [merge_step, hp]
      have h2 : merge_step ((ls, le) :: xs) p = p :: (ls, le) :: xs := by
        simp [merge_step, hp]
      rw [h1, h2]
      exact ih p ((ls, le) :: xs) rest

/-- Core invariant of the merge loop on a sorted, well-formed input whose
starts all lie at or after the open interval `(a, b)` on top of the stack:
the summed lengths of the resulting stack equal the cardinality of the union
of all covered months. -/
theorem merge_core (l : List (Int × Int)) :
    ∀ (a b : Int), (∀ p ∈ l, p.1 ≤ p.2) →
      List.Sorted (fun p q => p.1 ≤ q.1) l → (∀ p ∈ l, a ≤ p.1) → a ≤ b →
      ((l.foldl merge_step [(a, b)]).map (fun p => p.2 - p.1)).sum =
        ((period_set (a, b) ∪ periods_union l).card : Int) := by
  induction l with
  | nil =>
    intro a b _ _ _ hab
    simp [period_set, periods_union, Int.card_Ico,
      Int.toNat_of_nonneg (by omega : (0 : Int) ≤ b - a)]
  | cons c l' ih =>
    intro a b hwf hsorted hge hab
    obtain ⟨cs, ce⟩ := c
    rw [List.foldl_cons]
    have hac : a ≤ cs := hge (cs, ce) (List.mem_cons_self _ _)
    have hcwf : cs ≤ ce := hwf (cs, ce) (List.mem_cons_self _ _)
    have hwf' : ∀ p ∈ l', p.1 ≤ p.2 := fun p hp => hwf p (List.mem_cons_of_mem _ hp)
    have hsorted' := hsorted.of_cons
    have hrel : ∀ q ∈ l', cs ≤ q.1 := fun q hq => List.rel_of_sorted_cons hsorted q hq
    by_cases hmerge : cs ≤ b
    · have h1 : merge_step [(a, b)] (cs, ce) = [(a, max b ce)] := by
        simp [merge_step, hmerge]
      rw [h1, ih a (max b ce) hwf' hsorted'
        (fun p hp => le_trans hac (hrel p hp)) (le_trans hab (le_max_left _ _))]
      have hset : period_set (a, max b ce) ∪ periods_union l' =
          period_set (a, b) ∪ periods_union ((cs, ce) :: l') := by
        apply Finset.ext
        intro x
        simp only [period_set, periods_union, Finset.mem_union, Finset.mem_Ico]
        by_cases hU : x ∈ periods_union l' <;> simp [hU] <;> omega
      rw [hset]
    · have h1 : merge_step [(a, b)] (cs, ce) = (cs, ce) :: [] ++ [(a, b)] := by
        simp [merge_step, hmerge]
      rw [h1, foldl_merge_append l' (cs, ce) [] [(a, b)],
        List.map_append, List.sum_append]
      rw [ih cs ce hwf' hsorted' hrel hcwf]
      have hdisj : Disjoint (period_set (a, b)) (period_set (cs, ce) ∪ periods_union l') := by
        rw [Finset.disjoint_left]
        intro x hx hmem
        simp only [period_set, Finset.mem_Ico] at hx
        rcases Finset.mem_union.mp hmem with h | h
        · simp only [period_set, Finset.mem_Ico] at h
          omega
        · rcases (mem_periods_union x l').mp h with ⟨q, hq, hxq⟩
          simp only [period_set, Finset.mem_Ico] at hxq
          have := hrel q hq
          omega
      have hcardsplit : ((period_set (a, b) ∪ (period_set (cs, ce) ∪ periods_union l')).card
          : Int) = ((period_set (a, b)).card : Int) +
            ((period_set (cs, ce) ∪ periods_union l').card : Int) := by
        rw [Finset.card_union_of_disjoint hdisj]
        push_cast
        ring
      have hab' : ((period_set (a, b)).card : Int) = b - a := by
        simp [period_set, Int.card_Ico, Int.toNat_of_nonneg (by omega : (0 : Int) ≤ b - a)]
      rw [show periods_union ((cs, ce) :: l') = period_set (cs, ce) ∪ periods_union l'
        from rfl]
      rw [hcardsplit, hab']
      simp only [List.map_cons, List.map_nil, List.sum_cons, List.sum_nil]
      ring

/-- The merged total equals the number of covered months. -/
theorem merged_total_eq_card (ps : List (Int × Int)) (hwf : ∀ p ∈ ps, p.1 ≤ p.2) :
    total_months (merge_periods (sort_periods ps)) = ((periods_union ps).card : Int) := by
  haveI itot : IsTotal (Int × Int) (fun p q => p.1 ≤ q.1) :=
    ⟨fun p q => Int.le_total p.1 q.1⟩
  haveI itr : IsTrans (Int × Int) (fun p q => p.1 ≤ q.1) :=
    ⟨fun _ _ _ h1 h2 => le_trans h1 h2⟩
  have hperm : List.Perm (List.insertionSort (fun p q => p.1 ≤ q.1) ps) ps :=
    List.perm_insertionSort _ _
  have hUeq : periods_union (List.insertionSort (fun p q => p.1 ≤ q.1) ps) =
      periods_union ps := by
    apply Finset.ext
    intro x
    rw [mem_periods_union, mem_periods_union]
    constructor
    · rintro ⟨p, hp, hx⟩
      exact ⟨p, hperm.mem_iff.mp hp, hx⟩
    · rintro ⟨p, hp, hx⟩
      exact ⟨p, hperm.mem_iff.mpr hp, hx⟩
  have hsorted := List.sorted_insertionSort (fun p q => p.1 ≤ q.1) ps
  unfold total_months merge_periods sort_periods
  rcases hs : List.insertionSort (fun p q => p.1 ≤ q.1) ps with _ | ⟨⟨a, b⟩, rest⟩
  · have hnil : ps = [] := by
      have := hperm
      rw [hs] at this
      exact (this.symm).eq_nil
    subst hnil
    simp [periods_union]
  · rw [hs] at hsorted
    have hmem : ∀ p ∈ (a, b) :: rest, p ∈ ps := by
      intro p hp
      rw [← hs] at hp
      exact hperm.mem_iff.mp hp
    have hwfs : ∀ p ∈ (a, b) :: rest, p.1 ≤ p.2 := fun p hp => hwf p (hmem p hp)
    have hfold : List.foldl merge_step [] ((a, b) :: rest) =
        List.foldl merge_step [(a, b)] rest := rfl
    rw [hs, hfold]
    have hrevsum : ∀ m : List (Int × Int),
        ((m.reverse.map (fun p => p.2 - p.1)).sum) = ((m.map (fun p => p.2 - p.1)).sum) := by
      intro m
      rw [List.map_reverse, List.sum_reverse]
    rw [hrevsum]
    rw [merge_core rest a b (fun p hp => hwfs p (List.mem_cons_of_mem _ hp))
      hsorted.of_cons (fun p hp => List.rel_of_sorted_cons hsorted p hp)
      (hwfs (a, b) (List.mem_cons_self _ _))]
    rw [← hUeq, hs]
    rfl

/-- The number of covered months is at most the naive sum of the period
lengths. -/
theorem card_union_le_naive (ps : List (Int × Int)) (hwf : ∀ p ∈ ps, p.1 ≤ p.2) :
    ((periods_union ps).card : Int) ≤ (ps.map (fun p => p.2 - p.1)).sum := by
  induction ps with
  | nil => simp [periods_union]
  | cons p rest ih =>
    have hwf' : ∀ q ∈ rest, q.1 ≤ q.2 := fun q hq => hwf q (List.mem_cons_of_mem _ hq)
    have hp : p.1 ≤ p.2 := hwf p (List.mem_cons_self _ _)
    have hcard : ((period_set p).card : Int) = p.2 - p.1 := by
      simp [period_set, Int.card_Ico, Int.toNat_of_nonneg (by omega : (0 : Int) ≤ p.2 - p.1)]
    have hle : (periods_union (p :: rest)).card ≤
        (period_set p).card + (periods_union rest).card :=
      Finset.card_union_le _ _
    have := ih hwf'
    simp only [List.map_cons, List.sum_cons]
    have hcast : ((periods_union (p :: rest)).card : Int) ≤
        ((period_set p).card : Int) + ((periods_union rest).card : Int) := by
      exact_mod_cast hle
    omega

/-- Disjointness from the union is disjointness from every member. -/
theorem disjoint_periods_union (s : Finset Int) :
    ∀ l : List (Int × Int), Disjoint s (periods_union l) ↔
      ∀ q ∈ l, Disjoint s (period_set q) := by
  intro l
  induction l with
  | nil => simp [periods_union]
  | cons p rest ih =>
    rw [show periods_union (p :: rest) = period_set p ∪ periods_union rest from rfl,
      Finset.disjoint_union_right]
    constructor
    · rintro ⟨h1, h2⟩ q hq
      rcases List.mem_cons.mp hq with rfl | hq'
      · exact h1
      · exact (ih.mp h2) q hq'
    · intro h
      exact ⟨h p (List.mem_cons_self _ _),
        ih.mpr (fun q hq => h q (List.mem_cons_of_mem _ hq))⟩

/-- The covered-month count equals the naive sum exactly when the periods are
pairwise disjoint. -/
theorem card_union_eq_naive_iff (ps : List (Int × Int)) (hwf : ∀ p ∈ ps, p.1 ≤ p.2) :
    (((periods_union ps).card : Int) = (ps.map (fun p => p.2 - p.1)).sum ↔
      ps.Pairwise (fun p q => Disjoint (period_set p) (period_set q))) := by
  induction ps with
  | nil => simp [periods_union]
  | cons p rest ih =>
    have hwf' : ∀ q ∈ rest, q.1 ≤ q.2 := fun q hq => hwf q (List.mem_cons_of_mem _ hq)
    have hp : p.1 ≤ p.2 := hwf p (List.mem_cons_self _ _)
    have hcard : ((period_set p).card : Int) = p.2 - p.1 := by
      simp [period_set, Int.card_Ico, Int.toNat_of_nonneg (by omega : (0 : Int) ≤ p.2 - p.1)]
    have hUle := card_union_le_naive rest hwf'
    have hle : (periods_union (p :: rest)).card ≤
        (period_set p).card + (periods_union rest).card :=
      Finset.card_union_le _ _
    have hinter := Finset.card_union_add_card_inter (period_set p) (periods_union rest)
    simp only [List.map_cons, List.sum_cons, List.pairwise_cons]
    constructor
    · intro heq
      have hcast : ((periods_union (p :: rest)).card : Int) ≤
          ((period_set p).card : Int) + ((periods_union rest).card : Int) := by
        exact_mod_cast hle
      have hTeq : ((periods_union rest).card : Int) = (rest.map (fun q => q.2 - q.1)).sum := by
        rw [show periods_union (p :: rest) = period_set p ∪ periods_union rest from rfl]
          at heq
        omega
      have hSU : ((period_set p ∪ periods_union rest).card : Int) =
          ((period_set p).card : Int) + ((periods_union rest).card : Int) := by
        rw [show periods_union (p :: rest) = period_set p ∪ periods_union rest from rfl]
          at heq
        omega
      have hint0 : (period_set p ∩ periods_union rest).card = 0 := by
        have hcast2 : ((period_set p ∪ periods_union rest).card : Int) +
            ((period_set p ∩ periods_union rest).card : Int) =
            ((period_set p).card : Int) + ((periods_union rest).card : Int) := by
          exact_mod_cast hinter
        omega
      have hdisj : Disjoint (period_set p) (periods_union rest) := by
        rw [Finset.disjoint_iff_inter_eq_empty]
        exact Finset.card_eq_zero.mp hint0
      exact ⟨(disjoint_periods_union (period_set p) rest).mp hdisj, (ih hwf').mp hTeq⟩
    · rintro ⟨hdisjall, hpw⟩
      have hdisj : Disjoint (period_set p) (periods_union rest) :=
        (disjoint_periods_union (period_set p) rest).mpr hdisjall
      rw [show periods_union (p :: rest) = period_set p ∪ periods_union rest from rfl,
        Finset.card_union_of_disjoint hdisj]
      push_cast
      rw [hcard, (ih hwf').mpr hpw]

/-- C2: for every list of well-formed work periods, the merged (overlap
coalescing) month total is at most the naive sum of the individual period
lengths, and the two are equal exactly when no two periods share a month
(their month sets are pairwise disjoint). -/
theorem C2_merged_le_naive (ps : List (Int × Int)) (hwf : ∀ p ∈ ps, p.1 ≤ p.2) :
    total_months (merge_periods (sort_periods ps)) ≤ (ps.map (fun p => p.2 - p.1)).sum ∧
    (total_months (merge_periods (sort_periods ps)) = (ps.map (fun p => p.2 - p.1)).sum ↔
      ps.Pairwise (fun p q => Disjoint (period_set p) (period_set q))) := by
  rw [merged_total_eq_card ps hwf]
  exact ⟨card_union_le_naive ps hwf, card_union_eq_naive_iff ps hwf⟩

/-- C2 (witness): the statement at two concrete disjoint periods. -/
theorem C2_merged_le_naive_witness :
    (∀ p ∈ [((0 : Int), (2 : Int)), ((3 : Int), (5 : Int))], p.1 ≤ p.2) ∧
    (total_months (merge_periods (sort_periods [((0 : Int), (2 : Int)), ((3 : Int), (5 : Int))]))
        ≤ ([((0 : Int), (2 : Int)), ((3 : Int), (5 : Int))].map (fun p => p.2 - p.1)).sum ∧
      (total_months (merge_periods
          (sort_periods [((0 : Int), (2 : Int)), ((3 : Int), (5 : Int))])) =
          ([((0 : Int), (2 : Int)), ((3 : Int), (5 : Int))].map (fun p => p.2 - p.1)).sum ↔
        List.Pairwise (fun p q => Disjoint (period_set p) (period_set q))
          [((0 : Int), (2 : Int)), ((3 : Int), (5 : Int))])) :=
  ⟨by decide, C2_merged_le_naive _ (by decide)⟩
